import Mathlib

/-!
Verification of the SlicerMorph Animator and Segmentation Rendering modules.

The Python sources (Animator/Animator.py and
SegmentationRendering/SegmentationRendering.py) are shallowly embedded
below.  Floating point numbers are modelled as rationals, numpy arrays and
VTK transfer functions as lists or finite index functions, and the MRML
node attribute store as explicit record fields.  Host (Slicer/VTK) calls
that only move data are modelled by the data they move.
-/

/-! ## Animator action classes -/

/-- Timing fields of a camera rotation action dictionary
(`startTime`, `endTime`, `degreesPerSecond`). -/
structure CameraRotationActionData where
  startTime : ℚ
  endTime : ℚ
  degreesPerSecond : ℚ
deriving DecidableEq

/-- Rotation angle applied by `CameraRotationAction.act`.  The source first
resets the animated camera to the reference camera, then, unless
`scriptTime <= startTime`, rotates by `actionTime * degreesPerSecond` where
`actionTime = scriptTime - startTime` is replaced by `endTime` whenever it
exceeds `endTime`.  An angle of `0` models the reset-only path. -/
def CameraRotationAction.angle (a : CameraRotationActionData) (scriptTime : ℚ) : ℚ :=
  if scriptTime ≤ a.startTime then 0
  else
    let actionTime := scriptTime - a.startTime
    let clamped := if a.endTime < actionTime then a.endTime else actionTime
    clamped * a.degreesPerSecond

/-- Timing fields of an ROI action dictionary. -/
structure ROIActionTimes where
  startTime : ℚ
  endTime : ℚ
deriving DecidableEq

/-- State of a `vtkMRMLAnnotationROINode` that `ROIAction.act` reads and
writes: the center (`GetXYZ`/`SetXYZ`) and the radius
(`GetRadiusXYZ`/`SetRadiusXYZ`). -/
structure ROI where
  xyz : Fin 3 → ℚ
  radiusXYZ : Fin 3 → ℚ

/-- `ROIAction.act`: the returned ROI is the state written to the animated
ROI node.  Before `startTime` the start ROI is applied, at or after
`endTime` the end ROI, and strictly inside the window each component is
linearly interpolated with
`fraction = (scriptTime - startTime) / (endTime - startTime)`. -/
def ROIAction.act (a : ROIActionTimes) (startROI endROI : ROI) (scriptTime : ℚ) : ROI :=
  if scriptTime ≤ a.startTime then
    { xyz := startROI.xyz, radiusXYZ := startROI.radiusXYZ }
  else if a.endTime ≤ scriptTime then
    { xyz := endROI.xyz, radiusXYZ := endROI.radiusXYZ }
  else
    let fraction := (scriptTime - a.startTime) / (a.endTime - a.startTime)
    { xyz := fun i => startROI.xyz i + fraction * (endROI.xyz i - startROI.xyz i),
      radiusXYZ := fun i =>
        startROI.radiusXYZ i + fraction * (endROI.radiusXYZ i - startROI.radiusXYZ i) }

/-- Fields of a volume property action dictionary used by `act`. -/
structure VolumePropertyActionData where
  startTime : ℚ
  endTime : ℚ
  clampAtStart : Bool
  clampAtEnd : Bool
deriving DecidableEq

/-- The animated parts of a `vtkMRMLVolumePropertyNode`: the scalar opacity
transfer function (nodes of 4 values) and the color transfer function
(nodes of 6 values). -/
structure VolumeProperty where
  scalarOpacity : List (Fin 4 → ℚ)
  color : List (Fin 6 → ℚ)

/-- Linear interpolation of one transfer function node, componentwise. -/
def lerpNode {k : Nat} (fraction : ℚ) (s e : Fin k → ℚ) : Fin k → ℚ :=
  fun i => s i + fraction * (e i - s i)

/-- `VolumePropertyAction.act`: the returned property is the state written
to the animated volume property node (`none` when the source would read a
transfer function node out of range, which VTK reports as an error).  The
clamp branches copy the start or end property (`CopyParameterSet`); inside
the window the source copies the start property and then overwrites each
transfer function node, reading node `index` of both start and end for
`index` up to the start function size. -/
def VolumePropertyAction.act (a : VolumePropertyActionData)
    (startVP endVP animatedVP : VolumeProperty) (scriptTime : ℚ) : Option VolumeProperty :=
  if scriptTime ≤ a.startTime then
    some (if a.clampAtStart then startVP else animatedVP)
  else if a.endTime ≤ scriptTime then
    some (if a.clampAtEnd then endVP else animatedVP)
  else
    if startVP.scalarOpacity.length ≤ endVP.scalarOpacity.length ∧
        startVP.color.length ≤ endVP.color.length then
      let fraction := (scriptTime - a.startTime) / (a.endTime - a.startTime)
      some { scalarOpacity :=
               List.zipWith (lerpNode fraction) startVP.scalarOpacity endVP.scalarOpacity,
             color := List.zipWith (lerpNode fraction) startVP.color endVP.color }
    else none

/-- Which branch of the `act` conditionals runs at a given script time.
Both `ROIAction.act` and `VolumePropertyAction.act` share this structure:
`scriptTime <= startTime`, then `scriptTime >= endTime`, else the
interpolation branch that performs the division by
`endTime - startTime`. -/
inductive ActBranch where
  | atStart
  | atEnd
  | interpolate
deriving DecidableEq

/-- Branch taken by `ROIAction.act`. -/
def roiActBranch (a : ROIActionTimes) (scriptTime : ℚ) : ActBranch :=
  if scriptTime ≤ a.startTime then .atStart
  else if a.endTime ≤ scriptTime then .atEnd
  else .interpolate

/-- Branch taken by `VolumePropertyAction.act`. -/
def vpActBranch (a : VolumePropertyActionData) (scriptTime : ℚ) : ActBranch :=
  if scriptTime ≤ a.startTime then .atStart
  else if a.endTime ≤ scriptTime then .atEnd
  else .interpolate

/-- `CameraRotationAction.allowMultiple` returns `False` in the source. -/
def CameraRotationAction.allowMultiple : Bool := false

/-- `ROIAction.allowMultiple` returns `False` in the source. -/
def ROIAction.allowMultiple : Bool := false

/-- The superclass `AnimatorAction.allowMultiple` default, inherited by
`VolumePropertyAction`. -/
def AnimatorAction.allowMultiple : Bool := true

/-! ## The script data model (`AnimatorLogic` and `AnimatorWidget.onAddAction`) -/

/-- An action dictionary as stored inside a script, restricted to the
fields the scheduling logic reads: `id`, `class`, `startTime`,
`endTime`. -/
structure ScriptAction where
  id : String
  className : String
  startTime : ℚ
  endTime : ℚ
deriving DecidableEq

/-- A script: the `duration` field and the optional `actions` mapping.
`actions = none` models a script dictionary without an `actions` key; the
mapping itself is an insertion-ordered association list, like a Python
dict. -/
structure Script where
  duration : ℚ
  actions : Option (List (String × ScriptAction))
deriving DecidableEq

/-- `AnimatorLogic.getActions`: the `actions` entry of the script, or the
empty mapping when the key is absent. -/
def getActions (s : Script) : List (String × ScriptAction) :=
  s.actions.getD []

/-- Python dict item assignment `d[k] = v`: replace the entry when the key
is present (keeping its position), append otherwise. -/
def assocSet (l : List (String × ScriptAction)) (k : String) (v : ScriptAction) :
    List (String × ScriptAction) :=
  if l.any (fun kv => kv.1 = k) then
    l.map (fun kv => if kv.1 = k then (k, v) else kv)
  else l ++ [(k, v)]

/-- Python dict lookup `d[k]`, as an option. -/
def assocLookup (l : List (String × ScriptAction)) (k : String) : Option ScriptAction :=
  match l with
  | [] => none
  | kv :: rest => if kv.1 = k then some kv.2 else assocLookup rest k

/-- `AnimatorLogic.addAction`: store the action in the `actions` mapping
under the key `action['id']` (creating the mapping when absent). -/
def addAction (s : Script) (a : ScriptAction) : Script :=
  { s with actions := some (assocSet (getActions s) a.id a) }

/-- `AnimatorLogic.setAction`: `script['actions'][action['id']] = action`.
When the script has no `actions` key the source raises `KeyError`, modelled
as `none`. -/
def setAction (s : Script) (a : ScriptAction) : Option Script :=
  match s.actions with
  | none => none
  | some l => some { s with actions := some (assocSet l a.id a) }

/-- The list `getActionsByClass(animationNode)[c]`: all stored actions of
class `c`, in mapping order (empty when the class has no actions). -/
def actionsOfClass (s : Script) (c : String) : List ScriptAction :=
  ((getActions s).map Prod.snd).filter (fun a => a.className = c)

/-- The selection loop of `onAddAction`: starting from `classActions[0]`,
replace the candidate whenever a later action has a strictly greater
`endTime`. -/
def selectLast (best : ScriptAction) : List ScriptAction → ScriptAction
  | [] => best
  | a :: rest => if best.endTime < a.endTime then selectLast a rest else selectLast best rest

/-- In-place update `script['actions'][k]['endTime'] = newEnd`.  In the
source `k` is the id of an action taken from the mapping, hence present as
a key. -/
def updateActionEndTime (l : List (String × ScriptAction)) (k : String) (newEnd : ℚ) :
    List (String × ScriptAction) :=
  l.map (fun kv => if kv.1 = k then (kv.1, { kv.2 with endTime := newEnd }) else kv)

/-- Outcome messages of `onAddAction`: success, the
`only one per animation` message box, or the `Could not add action`
message box. -/
inductive AddMessage where
  | ok
  | onlyOneAllowed (className : String)
  | couldNotAdd
deriving DecidableEq

/-- `AnimatorWidget.onAddAction`, as a function of the current script, the
plugin's `allowMultiple()` and the plugin's `defaultAction()` result
(`none` when `defaultAction` failed).  Returns the script stored on the
animation node afterwards together with the message shown. -/
def onAddAction (s : Script) (allowMultiple : Bool) (defaultAction : Option ScriptAction) :
    Script × AddMessage :=
  match defaultAction with
  | none => (s, .couldNotAdd)
  | some action =>
    if !allowMultiple &&
        (s.actions.isSome && (getActions s).any (fun kv => kv.2.className = action.className)) then
      (s, .onlyOneAllowed action.className)
    else
      match actionsOfClass s action.className with
      | [] =>
        (addAction s { action with startTime := 0, endTime := s.duration }, .ok)
      | first :: rest =>
        let lastAction := selectLast first (first :: rest)
        let midTime := lastAction.startTime + (1 / 2 : ℚ) * (lastAction.endTime - lastAction.startTime)
        let newAction := { action with startTime := midTime, endTime := lastAction.endTime }
        let truncated : Script :=
          { s with actions := some (updateActionEndTime (getActions s) lastAction.id midTime) }
        (addAction truncated newAction, .ok)

/-! ## Segmentation Rendering -/

/-- Exceptions that the embedded code can raise: the built-in Python
exception types appearing in the source (`ValueError` from the input check
of `makeVectorVolume`, `AttributeError` from looking up a missing
attribute). -/
inductive PyException where
  | valueError (msg : String)
  | attributeError (attrName : String)
deriving DecidableEq

/-- The message text `str(e)` used when displaying an exception. -/
def pyExceptionMessage : PyException → String
  | .valueError m => m
  | .attributeError a => String.append ("no attribute ") a

/-- Methods defined on `SegmentationRenderingLogic` in the source (besides
the constructor): only `setDefaultParameters`.  `makeVectorVolume` is a
module-level function, not a method of the class, and the host base class
`ScriptedLoadableModuleLogic` supplies no `process` method. -/
def SegmentationRenderingLogic.definedMethods : List String :=
  ["setDefaultParameters"]

/-- The attribute access `self.logic.process(...)` inside `onApplyButton`:
it raises `AttributeError` when the logic class defines no `process`
method. -/
def logicProcessCall : Except PyException Unit :=
  if SegmentationRenderingLogic.definedMethods.contains ("process") then Except.ok ()
  else Except.error (.attributeError ("process"))

/-- What `onApplyButton` does after the button click: either the
computation completed, or an error box was displayed. -/
inductive ApplyOutcome where
  | completed
  | errorDisplayed (msg : String)
deriving DecidableEq

/-- `SegmentationRenderingWidget.onApplyButton`: runs the computation
inside `try`, and on any exception shows
`Failed to compute results: + str(e)` via `slicer.util.errorDisplay`
(with a logged traceback).  No exception escapes. -/
def onApplyButton (compute : Except PyException Unit) : ApplyOutcome :=
  match compute with
  | .ok _ => .completed
  | .error e => .errorDisplayed (String.append ("Failed to compute results: ") (pyExceptionMessage e))

/-- Maximum of a voxel array (`referenceArray.max()`); the source only
evaluates it on the nonempty arrays of an existing reference volume. -/
def refMaxList : List ℚ → ℚ
  | [] => 0
  | x :: xs => xs.foldl max x

/-- Maximum over all voxels of a reference volume with `n` voxels. -/
def refMax (n : Nat) (reference : Fin n → ℚ) : ℚ :=
  refMaxList ((List.finRange n).map reference)

/-- `numpy.unique(labelArray)`: the labels present in the exported
labelmap, each once.  (numpy returns them sorted; only membership and
uniqueness matter to the accumulation below, so insertion-order
deduplication is used.) -/
def uniqueLabels (n : Nat) (label : Fin n → Nat) : List Nat :=
  ((List.finRange n).map label).dedup

/-- Output voxel data of `makeVectorVolume`: the first three (RGB)
components and the fourth (alpha) component of each voxel, plus the
geometry copied from the reference volume. -/
structure VectorVolumeData (n : Nat) (Geom : Type) where
  rgb : Fin n → Fin 3 → ℚ
  alpha : Fin n → ℚ
  geometry : Geom

/-- Core of `makeVectorVolume`: the vector volume gets the reference
geometry, alpha is `255 * reference / referenceArray.max()`, RGB starts at
`0` and for each label in `numpy.unique(labelArray)` the loop adds
`255 * lookupTable.GetColor(label)` on the voxels whose label matches
(the `labelMask`).  Values are exact rationals; the trailing
`vtkImageCast` to unsigned char and the rendering and file-writing side
effects are not modelled. -/
def makeVectorVolume (n : Nat) {Geom : Type} (reference : Fin n → ℚ) (label : Fin n → Nat)
    (lut : Nat → Fin 3 → ℚ) (geometry : Geom) : VectorVolumeData n Geom :=
  { rgb := (uniqueLabels n label).foldl
      (fun acc l => fun v i => acc v i + 255 * lut l i * (if label v = l then 1 else 0))
      (fun _ _ => 0),
    alpha := fun v => 255 * reference v / refMax n reference,
    geometry := geometry }

/-- Entry check of `makeVectorVolume`:
`if not segmentationNode or not referenceNode: raise ValueError` with the
plain built-in `ValueError`.  The segmentation node is represented by the
labelmap it exports, the reference node by its voxel array. -/
def makeVectorVolumeChecked (n : Nat) {Geom : Type} (segmentation : Option (Fin n → Nat))
    (reference : Option (Fin n → ℚ)) (lut : Nat → Fin 3 → ℚ) (geometry : Geom) :
    Except PyException (VectorVolumeData n Geom) :=
  match segmentation, reference with
  | none, _ => Except.error (.valueError ("input is invalid"))
  | some _, none => Except.error (.valueError ("input is invalid"))
  | some label, some ref => Except.ok (makeVectorVolume n ref label lut geometry)

/-! ## JSON serialization (the `json.dumps` / `json.loads` pair behind
`AnimatorLogic.setScript` and `AnimatorLogic.getScript`)

JSON values are modelled by the mutual inductive below; numbers are
modelled as integers and strings as lists of characters.  The printer
follows `json.dumps` with its default separators; the parser accepts
exactly that format. -/

/-- The double quote character. -/
def quoteChar : Char := '\"'

/-- The backslash character. -/
def backslashChar : Char := '\\'

/-- The opening curly brace character. -/
def lbraceChar : Char := '\x7b'

/-- The closing curly brace character. -/
def rbraceChar : Char := '\x7d'

mutual
/-- A JSON value. -/
inductive Json where
  | null : Json
  | bool (b : Bool) : Json
  | num (n : Int) : Json
  | str (s : List Char) : Json
  | arr (items : JsonArray) : Json
  | obj (members : JsonObject) : Json
/-- The item list of a JSON array. -/
inductive JsonArray where
  | nil : JsonArray
  | cons (hd : Json) (tl : JsonArray) : JsonArray
/-- The key-value member list of a JSON object. -/
inductive JsonObject where
  | nil : JsonObject
  | cons (key : List Char) (val : Json) (tl : JsonObject) : JsonObject
end

/-- The decimal digit character for a value below ten. -/
def digitChar : Nat → Char
  | 0 => '0'
  | 1 => '1'
  | 2 => '2'
  | 3 => '3'
  | 4 => '4'
  | 5 => '5'
  | 6 => '6'
  | 7 => '7'
  | 8 => '8'
  | _ => '9'

/-- The numeric value of a decimal digit character. -/
def digitVal (c : Char) : Nat := c.toNat - 48

/-- Whether a character is a decimal digit. -/
def isDigitChar (c : Char) : Bool := 48 ≤ c.toNat && c.toNat ≤ 57

/-- Decimal digits of a natural number, most significant first. -/
def natDigits (n : Nat) : List Char :=
  if n < 10 then [digitChar n]
  else natDigits (n / 10) ++ [digitChar (n % 10)]
termination_by n
decreasing_by exact Nat.div_lt_self (by omega) (by omega)

/-- Decimal representation of an integer. -/
def intChars (n : Int) : List Char :=
  if n < 0 then '-' :: natDigits n.natAbs else natDigits n.natAbs

/-- JSON string escaping of one character: quote and backslash get a
backslash escape, everything else is emitted as is. -/
def escapeChar (c : Char) : List Char :=
  if c = quoteChar then [backslashChar, quoteChar]
  else if c = backslashChar then [backslashChar, backslashChar]
  else [c]

/-- JSON string escaping of a character list. -/
def escapeString : List Char → List Char
  | [] => []
  | c :: rest => escapeChar c ++ escapeString rest

/-- A JSON string literal: the escaped body between double quotes. -/
def quoteString (s : List Char) : List Char :=
  quoteChar :: (escapeString s ++ [quoteChar])

/-- The word the printer emits for `null`. -/
def nullText : List Char := ['n', 'u', 'l', 'l']

/-- The word the printer emits for `True`. -/
def trueText : List Char := ['t', 'r', 'u', 'e']

/-- The word the printer emits for `False`. -/
def falseText : List Char := ['f', 'a', 'l', 's', 'e']

mutual
/-- `json.dumps` of a value. -/
def dumpJson : Json → List Char
  | .null => nullText
  | .bool true => trueText
  | .bool false => falseText
  | .num n => intChars n
  | .str s => quoteString s
  | .arr items => '[' :: (dumpArray items ++ [']'])
  | .obj members => lbraceChar :: (dumpObject members ++ [rbraceChar])
/-- Array items joined by the default item separator. -/
def dumpArray : JsonArray → List Char
  | .nil => []
  | .cons hd .nil => dumpJson hd
  | .cons hd (.cons hd2 tl) =>
    dumpJson hd ++ ',' :: ' ' :: dumpArray (.cons hd2 tl)
/-- Object members joined by the default separators. -/
def dumpObject : JsonObject → List Char
  | .nil => []
  | .cons k v .nil => quoteString k ++ ':' :: ' ' :: dumpJson v
  | .cons k v (.cons k2 v2 tl) =>
    quoteString k ++ ':' :: ' ' :: dumpJson v ++ ',' :: ' ' :: dumpObject (.cons k2 v2 tl)
end

/-- Parse the body of a string literal after the opening quote, undoing
`escapeChar`; returns the decoded body and the input after the closing
quote. -/
def parseStringBody : List Char → Option (List Char × List Char)
  | [] => none
  | c :: rest =>
    if c = quoteChar then some ([], rest)
    else if c = backslashChar then
      match rest with
      | [] => none
      | e :: rest2 =>
        if e = quoteChar || e = backslashChar then
          (parseStringBody rest2).map (fun p => (e :: p.1, p.2))
        else none
    else (parseStringBody rest).map (fun p => (c :: p.1, p.2))
termination_by l => l.length
decreasing_by all_goals simp_arith

/-- Split off the longest leading run of decimal digits. -/
def takeDigits : List Char → List Char × List Char
  | [] => ([], [])
  | c :: rest =>
    if isDigitChar c then
      let p := takeDigits rest
      (c :: p.1, p.2)
    else ([], c :: rest)

/-- Numeric value of a digit list, most significant first. -/
def digitsVal (l : List Char) : Nat :=
  l.foldl (fun acc c => 10 * acc + digitVal c) 0

mutual
/-- Parse one JSON value; the `Nat` argument is recursion fuel. -/
def parseJson : Nat → List Char → Option (Json × List Char)
  | 0, _ => none
  | _ + 1, [] => none
  | fuel + 1, c :: rest =>
    if isDigitChar c then
      let p := takeDigits (c :: rest)
      some (.num (Int.ofNat (digitsVal p.1)), p.2)
    else if c = '-' then
      match rest with
      | d :: _ =>
        if isDigitChar d then
          let p := takeDigits rest
          some (.num (-(Int.ofNat (digitsVal p.1))), p.2)
        else none
      | [] => none
    else if c = 'n' then
      match rest with
      | 'u' :: 'l' :: 'l' :: r => some (.null, r)
      | _ => none
    else if c = 't' then
      match rest with
      | 'r' :: 'u' :: 'e' :: r => some (.bool true, r)
      | _ => none
    else if c = 'f' then
      match rest with
      | 'a' :: 'l' :: 's' :: 'e' :: r => some (.bool false, r)
      | _ => none
    else if c = quoteChar then
      (parseStringBody rest).map (fun p => (.str p.1, p.2))
    else if c = '[' then
      match rest with
      | [] => none
      | r0 :: r =>
        if r0 = ']' then some (.arr .nil, r)
        else (parseArrayItems fuel (r0 :: r)).map (fun p => (.arr p.1, p.2))
    else if c = lbraceChar then
      match rest with
      | [] => none
      | r0 :: r =>
        if r0 = rbraceChar then some (.obj .nil, r)
        else (parseObjectMembers fuel (r0 :: r)).map (fun p => (.obj p.1, p.2))
    else none
/-- Parse the items of a nonempty array, consuming the closing bracket. -/
def parseArrayItems : Nat → List Char → Option (JsonArray × List Char)
  | 0, _ => none
  | fuel + 1, input =>
    match parseJson fuel input with
    | none => none
    | some (j, r) =>
      match r with
      | ']' :: r2 => some (.cons j .nil, r2)
      | ',' :: ' ' :: r2 => (parseArrayItems fuel r2).map (fun p => (.cons j p.1, p.2))
      | _ => none
/-- Parse the members of a nonempty object, consuming the closing brace. -/
def parseObjectMembers : Nat → List Char → Option (JsonObject × List Char)
  | 0, _ => none
  | fuel + 1, input =>
    match input with
    | [] => none
    | q :: r0 =>
      if q = quoteChar then
        match parseStringBody r0 with
        | none => none
        | some (k, r1) =>
          match r1 with
          | ':' :: ' ' :: r2 =>
            match parseJson fuel r2 with
            | none => none
            | some (v, r3) =>
              match r3 with
              | [] => none
              | c3 :: r4 =>
                if c3 = rbraceChar then some (.cons k v .nil, r4)
                else if c3 = ',' then
                  match r4 with
                  | ' ' :: r5 => (parseObjectMembers fuel r5).map (fun p => (.cons k v p.1, p.2))
                  | _ => none
                else none
          | _ => none
      else none
end

/-- `json.dumps`. -/
def dumps (j : Json) : List Char := dumpJson j

/-- `json.loads`: parse the whole input (trailing characters are an
error, as in the source library). -/
def loads (s : List Char) : Option Json :=
  match parseJson (s.length + 1) s with
  | none => none
  | some (j, rest) => if rest = [] then some j else none

/-- The animation `vtkMRMLScriptedModuleNode`, reduced to its
`Animation.script` attribute (`none` models an attribute never set). -/
structure AnimationNode where
  scriptAttribute : Option (List Char)

/-- The default text used when the attribute is missing or empty. -/
def emptyObjectText : List Char := [lbraceChar, rbraceChar]

/-- `AnimatorLogic.getScript`:
`json.loads(node.GetAttribute(Animation.script) or the empty object)`.
An unset attribute reads as `None`, and Python `or` also replaces an
empty string. -/
def AnimatorLogic.getScript (n : AnimationNode) : Option Json :=
  loads (match n.scriptAttribute with
    | none => emptyObjectText
    | some s => if s = [] then emptyObjectText else s)

/-- `AnimatorLogic.setScript`: store `json.dumps(script)` in the
attribute. -/
def AnimatorLogic.setScript (_ : AnimationNode) (script : Json) : AnimationNode :=
  { scriptAttribute := some (dumps script) }

mutual
/-- Fuel needed by `parseJson` for a value. -/
def sizeJ : Json → Nat
  | .arr items => 1 + sizeA items
  | .obj members => 1 + sizeO members
  | _ => 1
/-- Fuel needed by `parseArrayItems` for an item list. -/
def sizeA : JsonArray → Nat
  | .nil => 0
  | .cons hd tl => 1 + max (sizeJ hd) (sizeA tl)
/-- Fuel needed by `parseObjectMembers` for a member list. -/
def sizeO : JsonObject → Nat
  | .nil => 0
  | .cons _ v tl => 1 + max (sizeJ v) (sizeO tl)
end

/-- The continuation after a printed value never starts with a digit, so
greedy number parsing stops in the right place. -/
def noLeadDigit : List Char → Bool
  | [] => true
  | c :: _ => !isDigitChar c

/-! ## Helper lemmas -/

theorem zipWith_getD {α β γ : Type} (f : α → β → γ) (l1 : List α) (l2 : List β)
    (idx : Nat) (d1 : α) (d2 : β) (d3 : γ) (h1 : idx < l1.length) (h2 : idx < l2.length) :
    (List.zipWith f l1 l2).getD idx d3 = f (l1.getD idx d1) (l2.getD idx d2) := by
  induction l1 generalizing l2 idx with
  | nil => simp at h1
  | cons x xs ih =>
    cases l2 with
    | nil => simp at h2
    | cons y ys =>
      cases idx with
      | zero => simp
      | succ m => simpa using ih ys m (by simpa using h1) (by simpa using h2)

/-! ## Claim theorems for the interpolation code -/

/-- C1: strictly inside the action window, `ROIAction.act` sets every
center and radius coordinate, and `VolumePropertyAction.act` sets all 4
values of every scalar opacity node and all 6 values of every color node,
to `start + fraction * (end - start)` where
`fraction = (scriptTime - startTime) / (endTime - startTime)` and the
start and end components come from the action's start and end control
nodes. -/
theorem c1_roi_and_volume_property_interpolation :
    (∀ (a : ROIActionTimes) (startROI endROI : ROI) (t : ℚ),
      a.startTime < t → t < a.endTime →
      ∀ i : Fin 3,
        (ROIAction.act a startROI endROI t).xyz i =
          startROI.xyz i +
            (t - a.startTime) / (a.endTime - a.startTime) * (endROI.xyz i - startROI.xyz i) ∧
        (ROIAction.act a startROI endROI t).radiusXYZ i =
          startROI.radiusXYZ i +
            (t - a.startTime) / (a.endTime - a.startTime) *
              (endROI.radiusXYZ i - startROI.radiusXYZ i)) ∧
    (∀ (a : VolumePropertyActionData) (startVP endVP animatedVP : VolumeProperty) (t : ℚ),
      a.startTime < t → t < a.endTime →
      startVP.scalarOpacity.length ≤ endVP.scalarOpacity.length →
      startVP.color.length ≤ endVP.color.length →
      ∃ vp, VolumePropertyAction.act a startVP endVP animatedVP t = some vp ∧
        vp.scalarOpacity.length = startVP.scalarOpacity.length ∧
        vp.color.length = startVP.color.length ∧
        (∀ idx : Nat, idx < startVP.scalarOpacity.length → ∀ i : Fin 4,
          (vp.scalarOpacity.getD idx (fun _ => 0)) i =
            (startVP.scalarOpacity.getD idx (fun _ => 0)) i +
              (t - a.startTime) / (a.endTime - a.startTime) *
                ((endVP.scalarOpacity.getD idx (fun _ => 0)) i -
                 (startVP.scalarOpacity.getD idx (fun _ => 0)) i)) ∧
        (∀ idx : Nat, idx < startVP.color.length → ∀ i : Fin 6,
          (vp.color.getD idx (fun _ => 0)) i =
            (startVP.color.getD idx (fun _ => 0)) i +
              (t - a.startTime) / (a.endTime - a.startTime) *
                ((endVP.color.getD idx (fun _ => 0)) i -
                 (startVP.color.getD idx (fun _ => 0)) i))) := by
  constructor
  · intro a startROI endROI t h1 h2 i
    rw [ROIAction.act, if_neg (not_le.mpr h1), if_neg (not_le.mpr h2)]
    exact ⟨rfl, rfl⟩
  · intro a startVP endVP animatedVP t h1 h2 hso hc
    rw [VolumePropertyAction.act, if_neg (not_le.mpr h1), if_neg (not_le.mpr h2),
      if_pos ⟨hso, hc⟩]
    refine ⟨_, rfl, ?_, ?_, ?_, ?_⟩
    · simpa using Nat.min_eq_left hso
    · simpa using Nat.min_eq_left hc
    · intro idx hidx i
      rw [zipWith_getD (lerpNode _) startVP.scalarOpacity endVP.scalarOpacity idx
        (fun _ => 0) (fun _ => 0) (fun _ => 0) hidx (lt_of_lt_of_le hidx hso)]
      rfl
    · intro idx hidx i
      rw [zipWith_getD (lerpNode _) startVP.color endVP.color idx
        (fun _ => 0) (fun _ => 0) (fun _ => 0) hidx (lt_of_lt_of_le hidx hc)]
      rfl

/-- Witness for C1 at a concrete action window and concrete control ROIs. -/
theorem c1_witness :
    (ROIAction.act ⟨0, 2⟩ ⟨fun _ => 0, fun _ => 0⟩ ⟨fun _ => 4, fun _ => 8⟩ 1).xyz 0 =
      0 + (1 - 0) / (2 - 0) * (4 - 0) :=
  ((c1_roi_and_volume_property_interpolation.1 ⟨0, 2⟩ ⟨fun _ => 0, fun _ => 0⟩
      ⟨fun _ => 4, fun _ => 8⟩ 1 (by norm_num) (by norm_num)) 0).1

/-- C2 (camera part, as found in the code): for the camera rotation action
with `startTime = 1`, `endTime = 2`, `degreesPerSecond = 90`, the angle
applied at `scriptTime = 3` (beyond `endTime`) is `180`, while the angle
applied at `scriptTime = endTime = 2` is `90`, which is also
`(endTime - startTime) * degreesPerSecond`.  The `act` code clamps
`actionTime = scriptTime - startTime` at `endTime` instead of at
`endTime - startTime`, so past the window the rotation keeps growing up
to `endTime * degreesPerSecond`, contradicting its own
`clamp to rotation at end` comment. -/
theorem c2_camera_rotation_end_clamp_bug :
    CameraRotationAction.angle ⟨1, 2, 90⟩ 3 = 180 ∧
    CameraRotationAction.angle ⟨1, 2, 90⟩ 2 = 90 ∧
    ((2 : ℚ) - 1) * 90 = 90 := by
  refine ⟨?_, ?_, by norm_num⟩ <;> norm_num [CameraRotationAction.angle]

/-- C10: the interpolation branch of `ROIAction.act` and
`VolumePropertyAction.act` is reached exactly when
`startTime < scriptTime < endTime`, and on that branch the divisor
`endTime - startTime` is strictly positive, so the division by zero
branch is unreachable. -/
theorem c10_interpolation_division_guard :
    (∀ (a : ROIActionTimes) (t : ℚ),
      roiActBranch a t = .interpolate → 0 < a.endTime - a.startTime) ∧
    (∀ (a : VolumePropertyActionData) (t : ℚ),
      vpActBranch a t = .interpolate → 0 < a.endTime - a.startTime) ∧
    (∀ (a : ROIActionTimes) (t : ℚ),
      ¬t ≤ a.startTime → ¬a.endTime ≤ t → roiActBranch a t = .interpolate) ∧
    (∀ (a : VolumePropertyActionData) (t : ℚ),
      ¬t ≤ a.startTime → ¬a.endTime ≤ t → vpActBranch a t = .interpolate) := by
  refine ⟨?_, ?_, ?_, ?_⟩ <;> intro a t
  · rw [roiActBranch]
    by_cases h1 : t ≤ a.startTime
    · rw [if_pos h1]; intro h; cases h
    · rw [if_neg h1]
      by_cases h2 : a.endTime ≤ t
      · rw [if_pos h2]; intro h; cases h
      · rw [if_neg h2]; intro _; push_neg at h1 h2; linarith
  · rw [vpActBranch]
    by_cases h1 : t ≤ a.startTime
    · rw [if_pos h1]; intro h; cases h
    · rw [if_neg h1]
      by_cases h2 : a.endTime ≤ t
      · rw [if_pos h2]; intro h; cases h
      · rw [if_neg h2]; intro _; push_neg at h1 h2; linarith
  · intro h1 h2; rw [roiActBranch, if_neg h1, if_neg h2]
  · intro h1 h2; rw [vpActBranch, if_neg h1, if_neg h2]

/-- Witness for C10 at a concrete action window and script time. -/
theorem c10_witness :
    roiActBranch ⟨0, 1⟩ (1 / 2) = ActBranch.interpolate ∧
      (0 : ℚ) < (1 : ℚ) - 0 :=
  ⟨by norm_num [roiActBranch],
    c10_interpolation_division_guard.1 ⟨0, 1⟩ (1 / 2) (by norm_num [roiActBranch])⟩

/-! ## Association list lemmas for the script model -/

theorem assocLookup_none_iff (l : List (String × ScriptAction)) (k : String) :
    assocLookup l k = none ↔ l.any (fun kv => kv.1 = k) = false := by
  induction l with
  | nil => simp [assocLookup]
  | cons kv rest ih =>
    by_cases hk : kv.1 = k
    · simp [assocLookup, hk]
    · simp [assocLookup, hk, ih]

theorem assocSet_of_fresh (l : List (String × ScriptAction)) (k : String) (v : ScriptAction)
    (h : assocLookup l k = none) : assocSet l k v = l ++ [(k, v)] := by
  rw [assocSet, if_neg]
  rw [assocLookup_none_iff] at h
  simp [h]

theorem assocLookup_append_self (l : List (String × ScriptAction)) (k : String) (v : ScriptAction)
    (h : assocLookup l k = none) : assocLookup (l ++ [(k, v)]) k = some v := by
  induction l with
  | nil => simp [assocLookup]
  | cons kv rest ih =>
    rw [assocLookup] at h
    by_cases hk : kv.1 = k
    · rw [if_pos hk] at h; cases h
    · rw [if_neg hk] at h
      rw [List.cons_append, assocLookup, if_neg hk]
      exact ih h

theorem assocLookup_append_ne (l : List (String × ScriptAction)) (k k' : String)
    (v : ScriptAction) (hne : k' ≠ k) :
    assocLookup (l ++ [(k, v)]) k' = assocLookup l k' := by
  induction l with
  | nil =>
    have h1 : ¬(k = k') := fun h => hne h.symm
    simp [assocLookup, h1]
  | cons kv rest ih =>
    rw [List.cons_append, assocLookup, assocLookup]
    by_cases hk : kv.1 = k'
    · rw [if_pos hk, if_pos hk]
    · rw [if_neg hk, if_neg hk]; exact ih

theorem assocLookup_map_set_self (l : List (String × ScriptAction)) (k : String)
    (v : ScriptAction) (h : l.any (fun kv => kv.1 = k) = true) :
    assocLookup (l.map (fun kv => if kv.1 = k then (k, v) else kv)) k = some v := by
  induction l with
  | nil => simp at h
  | cons kv rest ih =>
    by_cases hk : kv.1 = k
    · simp [assocLookup, hk]
    · have h2 : rest.any (fun kv => kv.1 = k) = true := by simpa [hk] using h
      simp only [List.map_cons, if_neg hk]
      rw [assocLookup, if_neg hk]
      exact ih h2

theorem assocLookup_map_set_ne (l : List (String × ScriptAction)) (k k' : String)
    (v : ScriptAction) (hne : k' ≠ k) :
    assocLookup (l.map (fun kv => if kv.1 = k then (k, v) else kv)) k' = assocLookup l k' := by
  induction l with
  | nil => simp
  | cons kv rest ih =>
    by_cases hk : kv.1 = k
    · have h1 : ¬(k = k') := fun he => hne he.symm
      have h2 : ¬(kv.1 = k') := by rw [hk]; exact h1
      simp only [List.map_cons, if_pos hk]
      rw [assocLookup, if_neg h1, assocLookup, if_neg h2]
      exact ih
    · simp only [List.map_cons, if_neg hk]
      rw [assocLookup, assocLookup]
      by_cases hk' : kv.1 = k'
      · rw [if_pos hk', if_pos hk']
      · rw [if_neg hk', if_neg hk']; exact ih

theorem assocLookup_assocSet_self (l : List (String × ScriptAction)) (k : String)
    (v : ScriptAction) : assocLookup (assocSet l k v) k = some v := by
  rw [assocSet]
  by_cases h : l.any (fun kv => kv.1 = k) = true
  · rw [if_pos h]; exact assocLookup_map_set_self l k v h
  · rw [if_neg h]
    exact assocLookup_append_self l k v
      ((assocLookup_none_iff l k).mpr (Bool.eq_false_iff.mpr h))

theorem assocLookup_assocSet_ne (l : List (String × ScriptAction)) (k k' : String)
    (v : ScriptAction) (hne : k' ≠ k) :
    assocLookup (assocSet l k v) k' = assocLookup l k' := by
  rw [assocSet]
  by_cases h : l.any (fun kv => kv.1 = k) = true
  · rw [if_pos h]; exact assocLookup_map_set_ne l k k' v hne
  · rw [if_neg h]; exact assocLookup_append_ne l k k' v hne

theorem assocLookup_update_self (l : List (String × ScriptAction)) (k : String) (e : ℚ) :
    assocLookup (updateActionEndTime l k e) k =
      (assocLookup l k).map (fun v => { v with endTime := e }) := by
  induction l with
  | nil => simp [updateActionEndTime, assocLookup]
  | cons kv rest ih =>
    by_cases hk : kv.1 = k
    · simp only [updateActionEndTime, List.map_cons, if_pos hk]
      rw [assocLookup, if_pos hk, assocLookup, if_pos hk]
      rfl
    · simp only [updateActionEndTime, List.map_cons, if_neg hk]
      rw [assocLookup, if_neg hk, assocLookup, if_neg hk]
      exact ih

theorem assocLookup_update_ne (l : List (String × ScriptAction)) (k k' : String) (e : ℚ)
    (hne : k' ≠ k) :
    assocLookup (updateActionEndTime l k e) k' = assocLookup l k' := by
  induction l with
  | nil => simp [updateActionEndTime, assocLookup]
  | cons kv rest ih =>
    by_cases hk : kv.1 = k
    · have h2 : ¬(kv.1 = k') := by rw [hk]; exact fun he => hne he.symm
      simp only [updateActionEndTime, List.map_cons, if_pos hk]
      rw [assocLookup, if_neg h2, assocLookup, if_neg h2]
      exact ih
    · simp only [updateActionEndTime, List.map_cons, if_neg hk]
      rw [assocLookup, assocLookup]
      by_cases hk' : kv.1 = k'
      · rw [if_pos hk', if_pos hk']
      · rw [if_neg hk', if_neg hk']; exact ih

theorem assocLookup_of_mem (l : List (String × ScriptAction)) (a : ScriptAction)
    (hkeys : ∀ kv ∈ l, (kv.2).id = kv.1)
    (hnodup : (l.map Prod.fst).Nodup)
    (ha : a ∈ l.map Prod.snd) : assocLookup l a.id = some a := by
  induction l with
  | nil => simp at ha
  | cons kv rest ih =>
    rw [List.map_cons, List.mem_cons] at ha
    rw [List.map_cons, List.nodup_cons] at hnodup
    rcases ha with ha1 | ha2
    · subst ha1
      rw [assocLookup, if_pos (hkeys kv (List.mem_cons_self _ _)).symm]
    · have hk_ne : ¬(kv.1 = a.id) := by
        intro he
        obtain ⟨kv2, hkv2, hkv2a⟩ := List.mem_map.mp ha2
        have h2 : kv2.1 = a.id := by
          rw [← hkv2a]
          exact (hkeys kv2 (List.mem_cons_of_mem _ hkv2)).symm
        refine hnodup.1 ?_
        rw [he, ← h2]
        exact List.mem_map_of_mem Prod.fst hkv2
      rw [assocLookup, if_neg hk_ne]
      exact ih (fun kv2 h2 => hkeys kv2 (List.mem_cons_of_mem _ h2)) hnodup.2 ha2

theorem selectLast_spec (l : List ScriptAction) (best : ScriptAction) :
    (selectLast best l = best ∨ selectLast best l ∈ l) ∧
    best.endTime ≤ (selectLast best l).endTime ∧
    ∀ b ∈ l, b.endTime ≤ (selectLast best l).endTime := by
  induction l generalizing best with
  | nil => simp [selectLast]
  | cons a rest ih =>
    rw [selectLast]
    by_cases h : best.endTime < a.endTime
    · rw [if_pos h]
      obtain ⟨hmem, hle, hall⟩ := ih a
      refine ⟨?_, by linarith, ?_⟩
      · rcases hmem with h1 | h1
        · right; rw [h1]; exact List.mem_cons_self _ _
        · right; exact List.mem_cons_of_mem _ h1
      · intro b hb
        rcases List.mem_cons.mp hb with rfl | hb2
        · exact hle
        · exact hall b hb2
    · rw [if_neg h]
      obtain ⟨hmem, hle, hall⟩ := ih best
      refine ⟨?_, hle, ?_⟩
      · rcases hmem with h1 | h1
        · left; exact h1
        · right; exact List.mem_cons_of_mem _ h1
      · intro b hb
        rcases List.mem_cons.mp hb with rfl | hb2
        · push_neg at h; linarith
        · exact hall b hb2

theorem mem_actionsOfClass (s : Script) (c : String) (b : ScriptAction) :
    b ∈ actionsOfClass s c ↔ b ∈ (getActions s).map Prod.snd ∧ b.className = c := by
  simp [actionsOfClass, List.mem_filter]

theorem actionsOfClass_nil_any_false (s : Script) (c : String)
    (h : actionsOfClass s c = []) :
    (getActions s).any (fun kv => (kv.2).className = c) = false := by
  rw [actionsOfClass, List.filter_eq_nil_iff] at h
  rw [List.any_eq_false]
  intro kv hkv
  simpa using h (kv.2) (List.mem_map_of_mem Prod.snd hkv)

/-- C3: when `onAddAction` inserts an action whose class already has
actions in the script (and the class allows multiple actions), it picks
the existing action of that class with the latest `endTime`, gives the new
action the window from `midTime = startTime + 0.5 * (endTime - startTime)`
of that action to that action's `endTime`, truncates that action's
`endTime` to `midTime`, and leaves every other stored action unchanged;
when no action of the class exists, the new action's window is
`[0, duration]`.  The hypotheses say that stored entries are keyed by
their own ids (which `addAction` guarantees), that the keys are distinct
(they are Python dict keys) and that the new action's uuid-based id is not
yet a key. -/
theorem c3_add_action_scheduling (s : Script) (a : ScriptAction)
    (hkeys : ∀ kv ∈ getActions s, (kv.2).id = kv.1)
    (hnodup : ((getActions s).map Prod.fst).Nodup)
    (hfresh : assocLookup (getActions s) a.id = none) :
    (actionsOfClass s a.className = [] →
      onAddAction s true (some a) =
        (addAction s { a with startTime := 0, endTime := s.duration }, AddMessage.ok) ∧
      assocLookup (getActions (onAddAction s true (some a)).1) a.id =
        some { a with startTime := 0, endTime := s.duration }) ∧
    (∀ first rest, actionsOfClass s a.className = first :: rest →
      selectLast first (first :: rest) ∈ actionsOfClass s a.className ∧
      (∀ b ∈ actionsOfClass s a.className,
        b.endTime ≤ (selectLast first (first :: rest)).endTime) ∧
      (let la := selectLast first (first :: rest)
       let mid := la.startTime + (1 / 2 : ℚ) * (la.endTime - la.startTime)
       let res := (onAddAction s true (some a)).1
       (onAddAction s true (some a)).2 = AddMessage.ok ∧
       assocLookup (getActions res) a.id =
         some { a with startTime := mid, endTime := la.endTime } ∧
       assocLookup (getActions res) la.id = some { la with endTime := mid } ∧
       ∀ k, k ≠ a.id → k ≠ la.id →
         assocLookup (getActions res) k = assocLookup (getActions s) k)) := by
  have hcond : (!true && (s.actions.isSome &&
      (getActions s).any (fun kv => (kv.2).className = a.className))) = false := by
    simp
  constructor
  · intro hnil
    rw [onAddAction]
    simp only [Bool.false_and, Bool.not_true, if_neg (by simp : ¬((false : Bool) = true))]
    rw [hnil]
    refine ⟨rfl, ?_⟩
    rw [addAction]
    simp only [getActions, Option.getD_some]
    exact assocLookup_assocSet_self _ _ _
  · intro first rest hcons
    have hspec := selectLast_spec (first :: rest) first
    have hmem : selectLast first (first :: rest) ∈ actionsOfClass s a.className := by
      rw [hcons]
      rcases hspec.1 with h1 | h1
      · rw [h1]; exact List.mem_cons_self _ _
      · exact h1
    refine ⟨hmem, ?_, ?_⟩
    · intro b hb
      rw [hcons] at hb
      exact hspec.2.2 b hb
    · intro la mid res
      have hla_val : la ∈ (getActions s).map Prod.snd :=
        ((mem_actionsOfClass s a.className la).mp hmem).1
      have hla_lookup : assocLookup (getActions s) la.id = some la :=
        assocLookup_of_mem (getActions s) la hkeys hnodup hla_val
      have hne : a.id ≠ la.id := by
        intro he
        rw [← he] at hla_lookup
        rw [hfresh] at hla_lookup
        cases hla_lookup
      have hres : res =
          addAction
            { s with actions := some (updateActionEndTime (getActions s) la.id mid) }
            { a with startTime := mid, endTime := la.endTime } ∧
          (onAddAction s true (some a)).2 = AddMessage.ok := by
        constructor
        · show (onAddAction s true (some a)).1 = _
          rw [onAddAction]
          simp only [Bool.false_and, Bool.not_true, if_neg (by simp : ¬((false : Bool) = true))]
          rw [hcons]
        · rw [onAddAction]
          simp only [Bool.false_and, Bool.not_true, if_neg (by simp : ¬((false : Bool) = true))]
          rw [hcons]
      obtain ⟨hres1, hres2⟩ := hres
      have hglue : getActions res =
          assocSet (updateActionEndTime (getActions s) la.id mid) a.id
            { a with startTime := mid, endTime := la.endTime } := by
        rw [hres1, addAction]
        simp [getActions]
      refine ⟨hres2, ?_, ?_, ?_⟩
      · rw [hglue]
        exact assocLookup_assocSet_self _ _ _
      · rw [hglue, assocLookup_assocSet_ne _ _ _ _ (fun he => hne he.symm),
          assocLookup_update_self, hla_lookup]
        rfl
      · intro k hka hkla
        rw [hglue, assocLookup_assocSet_ne _ _ _ _ hka,
          assocLookup_update_ne _ _ _ _ hkla]

/-- Witness for C3: adding an ROI action to a script with no actions gives
it the window from `0` to the script duration `5`. -/
theorem c3_witness :
    onAddAction ⟨5, none⟩ true (some ⟨("roi-1"), ("ROIAction"), 0, -1⟩) =
      (addAction ⟨5, none⟩ ⟨("roi-1"), ("ROIAction"), 0, 5⟩, AddMessage.ok) :=
  ((c3_add_action_scheduling ⟨5, none⟩ ⟨("roi-1"), ("ROIAction"), 0, -1⟩
      (by simp [getActions]) (by simp [getActions]) rfl).1 rfl).1

/-- C7 counterexample: `addAction` stores an action whose id is `roi-1`
and whose class name is `ROIAction` under the key `roi-1`, not under the
class name; looking the mapping up by class name finds nothing. -/
theorem c7_actions_keyed_by_class_cex :
    getActions (addAction ⟨5, none⟩ ⟨("roi-1"), ("ROIAction"), 0, 5⟩) =
      [(("roi-1"), ⟨("roi-1"), ("ROIAction"), 0, 5⟩)] ∧
    assocLookup (getActions (addAction ⟨5, none⟩ ⟨("roi-1"), ("ROIAction"), 0, 5⟩))
      ("ROIAction") = none ∧
    ("roi-1" : String) ≠ ("ROIAction") := by
  refine ⟨rfl, rfl, by decide⟩

/-- C7 (amended): `addAction` and `setAction` store the action under the
key `action['id']`, and the stored entry is the action itself, so it
carries the `startTime` and `endTime` fields it was passed. -/
theorem c7_actions_keyed_by_id :
    (∀ (s : Script) (a : ScriptAction),
      assocLookup (getActions (addAction s a)) a.id = some a) ∧
    (∀ (s : Script) (a : ScriptAction) (s2 : Script),
      setAction s a = some s2 → assocLookup (getActions s2) a.id = some a) ∧
    (∀ (s : Script) (a b : ScriptAction),
      assocLookup (getActions (addAction s a)) a.id = some b →
      b.startTime = a.startTime ∧ b.endTime = a.endTime) := by
  have h1 : ∀ (s : Script) (a : ScriptAction),
      assocLookup (getActions (addAction s a)) a.id = some a := by
    intro s a
    rw [addAction]
    simp only [getActions, Option.getD_some]
    exact assocLookup_assocSet_self _ _ _
  refine ⟨h1, ?_, ?_⟩
  · intro s a s2 h
    cases hs : s.actions with
    | none => rw [setAction, hs] at h; cases h
    | some l =>
      rw [setAction, hs] at h
      cases h
      simp only [getActions, Option.getD_some]
      exact assocLookup_assocSet_self _ _ _
  · intro s a b h
    rw [h1 s a] at h
    cases h
    exact ⟨rfl, rfl⟩

/-- Witness for C7 at a concrete script and action. -/
theorem c7_witness :
    assocLookup (getActions ⟨5, some [(("roi-1"), ⟨("roi-1"), ("ROIAction"), 1, 2⟩)]⟩)
        ("roi-1") = some ⟨("roi-1"), ("ROIAction"), 1, 2⟩ :=
  c7_actions_keyed_by_id.2.1 ⟨5, some []⟩ ⟨("roi-1"), ("ROIAction"), 1, 2⟩
    ⟨5, some [(("roi-1"), ⟨("roi-1"), ("ROIAction"), 1, 2⟩)]⟩ rfl

/-- C9: `allowMultiple` is `False` exactly for the camera rotation and ROI
action classes; for such a class `onAddAction` refuses the add with the
`only one per animation` message box and leaves the script unchanged when
an action of the class is already stored, and when none is stored the
resulting script holds exactly one action of the class. -/
theorem c9_single_instance_actions :
    (CameraRotationAction.allowMultiple = false ∧ ROIAction.allowMultiple = false ∧
      AnimatorAction.allowMultiple = true) ∧
    (∀ (s : Script) (a : ScriptAction),
      (getActions s).any (fun kv => (kv.2).className = a.className) = true →
      onAddAction s false (some a) = (s, AddMessage.onlyOneAllowed a.className)) ∧
    (∀ (s : Script) (a : ScriptAction),
      actionsOfClass s a.className = [] →
      assocLookup (getActions s) a.id = none →
      actionsOfClass ((onAddAction s false (some a)).1) a.className =
        [{ a with startTime := 0, endTime := s.duration }]) := by
  refine ⟨⟨rfl, rfl, rfl⟩, ?_, ?_⟩
  · intro s a h
    have hsome : s.actions.isSome = true := by
      cases hs : s.actions with
      | none => rw [getActions, hs] at h; simp at h
      | some l => rfl
    rw [onAddAction]
    rw [if_pos (by rw [hsome, h]; rfl)]
  · intro s a hnil hfresh
    have hany : (getActions s).any (fun kv => (kv.2).className = a.className) = false :=
      actionsOfClass_nil_any_false s a.className hnil
    have hres : (onAddAction s false (some a)).1 =
        addAction s { a with startTime := 0, endTime := s.duration } := by
      rw [onAddAction]
      rw [if_neg (by rw [hany]; simp)]
      rw [hnil]
    rw [hres, addAction]
    rw [assocSet_of_fresh _ _ _ hfresh]
    rw [actionsOfClass] at hnil ⊢
    simp only [getActions, Option.getD_some] at hnil ⊢
    rw [List.map_append, List.filter_append, hnil]
    simp

/-- Witness for C9: a second camera rotation action is refused. -/
theorem c9_witness :
    onAddAction
        ⟨5, some [(("cam-1"), ⟨("cam-1"), ("CameraRotationAction"), 0, 5⟩)]⟩ false
        (some ⟨("cam-2"), ("CameraRotationAction"), 0, -1⟩) =
      (⟨5, some [(("cam-1"), ⟨("cam-1"), ("CameraRotationAction"), 0, 5⟩)]⟩,
        AddMessage.onlyOneAllowed ("CameraRotationAction")) :=
  c9_single_instance_actions.2.1
    ⟨5, some [(("cam-1"), ⟨("cam-1"), ("CameraRotationAction"), 0, 5⟩)]⟩
    ⟨("cam-2"), ("CameraRotationAction"), 0, -1⟩ (by decide)

/-! ## Lemmas for the vector volume accumulation -/

theorem foldl_rgb_accum (L : List Nat) (lut : Nat → Fin 3 → ℚ) {n : Nat} (label : Fin n → Nat)
    (f0 : Fin n → Fin 3 → ℚ) (v : Fin n) (i : Fin 3) :
    (L.foldl
        (fun acc l => fun v i => acc v i + 255 * lut l i * (if label v = l then 1 else 0))
        f0) v i =
      f0 v i + (L.map (fun l => 255 * lut l i * (if label v = l then 1 else 0))).sum := by
  induction L generalizing f0 with
  | nil => simp
  | cons x xs ih =>
    rw [List.foldl_cons, ih]
    simp [add_assoc]

theorem sum_indicator_unique (L : List Nat) (m : Nat) (g : Nat → ℚ)
    (hmem : m ∈ L) (hnodup : L.Nodup) :
    (L.map (fun l => g l * (if m = l then 1 else 0))).sum = g m := by
  induction L with
  | nil => simp at hmem
  | cons x xs ih =>
    rw [List.nodup_cons] at hnodup
    rcases List.mem_cons.mp hmem with rfl | h2
    · rw [List.map_cons, List.sum_cons, if_pos rfl, mul_one]
      have hz : (xs.map (fun l => g l * (if m = l then 1 else 0))).sum = 0 := by
        apply List.sum_eq_zero
        intro y hy
        obtain ⟨l, hl, hyl⟩ := List.mem_map.mp hy
        have hne2 : ¬(m = l) := fun he => hnodup.1 (by rw [he]; exact hl)
        rw [← hyl, if_neg hne2, mul_zero]
      rw [hz, add_zero]
    · have hne : ¬(m = x) := fun he => hnodup.1 (he ▸ h2)
      rw [List.map_cons, List.sum_cons, if_neg hne, mul_zero, zero_add]
      exact ih h2 hnodup.2

/-- C4 counterexample: one voxel lying outside every segment carries the
background label `0`; with a lookup table mapping label `0` to white the
voxel's RGB components come out as `255`, not `0`, because
`numpy.unique(labelArray)` includes the background label and the loop adds
`255 * lookup(0)` over the background mask. -/
theorem c4_background_rgb_cex :
    (makeVectorVolume 1 (fun _ => 1) (fun _ => 0) (fun _ _ => 1) ()).rgb 0 0 = 255 ∧
    (255 : ℚ) ≠ 0 := by
  constructor
  · have h := @foldl_rgb_accum (uniqueLabels 1 (fun _ => 0)) (fun _ _ => (1 : ℚ)) 1
      (fun _ => 0) (fun _ _ => 0) 0 0
    simp only [makeVectorVolume]
    rw [h]
    have hu : uniqueLabels 1 (fun _ => 0) = [0] := rfl
    rw [hu]
    norm_num
  · norm_num

/-- C4 (amended): `makeVectorVolume` copies the reference geometry, sets
every voxel's alpha to `255 * reference / max(reference)`, and gives every
voxel the RGB components `255 * lookup(label)` for its own exported label
(equivalently the sum over the labels present, including the background
label `0`, of `255 * lookup(label)` restricted to the voxels carrying that
label); voxels outside every segment therefore get `255 * lookup(0)`,
which is RGB `0` exactly when the lookup table maps label `0` to black.
Values are exact rationals, before the final cast to unsigned char. -/
theorem c4_vector_volume_components (n : Nat) {Geom : Type} (reference : Fin n → ℚ)
    (label : Fin n → Nat) (lut : Nat → Fin 3 → ℚ) (geometry : Geom) (v : Fin n) (i : Fin 3) :
    (makeVectorVolume n reference label lut geometry).alpha v =
      255 * reference v / refMax n reference ∧
    (makeVectorVolume n reference label lut geometry).rgb v i = 255 * lut (label v) i ∧
    (makeVectorVolume n reference label lut geometry).geometry = geometry := by
  refine ⟨rfl, ?_, rfl⟩
  have h := foldl_rgb_accum (uniqueLabels n label) lut label (fun _ _ => 0) v i
  simp only [makeVectorVolume]
  rw [h]
  have hmem : label v ∈ uniqueLabels n label := by
    rw [uniqueLabels, List.mem_dedup]
    exact List.mem_map_of_mem label (List.mem_finRange v)
  have hs := sum_indicator_unique (uniqueLabels n label) (label v)
    (fun l => 255 * lut l i) hmem (List.nodup_dedup _)
  simp only at hs
  rw [hs]
  simp

/-- C5 (as found in the code): `SegmentationRenderingLogic` defines no
`process` method, so the `self.logic.process(...)` call made by
`onApplyButton` raises `AttributeError`, which the handler catches and
surfaces as a `Failed to compute results` error box; clicking Apply never
reaches the vector volume computation. -/
theorem c5_apply_button_missing_process :
    SegmentationRenderingLogic.definedMethods.contains ("process") = false ∧
    logicProcessCall = Except.error (PyException.attributeError ("process")) ∧
    onApplyButton logicProcessCall =
      ApplyOutcome.errorDisplayed
        (String.append ("Failed to compute results: ")
          (pyExceptionMessage (PyException.attributeError ("process")))) := by
  refine ⟨by decide, ?_, ?_⟩
  · rw [logicProcessCall, if_neg (by decide)]
  · rw [logicProcessCall, if_neg (by decide)]
    rfl

/-- C8: whatever the computation does, `onApplyButton` either completes or
displays the `Failed to compute results` message built from the caught
exception, so no exception propagates; and `makeVectorVolume` rejects a
missing segmentation node or reference node with the plain built-in
`ValueError`. -/
theorem c8_error_handling :
    (∀ r : Except PyException Unit,
      onApplyButton r = ApplyOutcome.completed ∨
      ∃ m, onApplyButton r = ApplyOutcome.errorDisplayed m) ∧
    (∀ e : PyException,
      onApplyButton (Except.error e) =
        ApplyOutcome.errorDisplayed
          (String.append ("Failed to compute results: ") (pyExceptionMessage e))) ∧
    (∀ (n : Nat) (reference : Option (Fin n → ℚ)) (lut : Nat → Fin 3 → ℚ),
      makeVectorVolumeChecked n none reference lut () =
        Except.error (PyException.valueError ("input is invalid"))) ∧
    (∀ (n : Nat) (segmentation : Fin n → Nat) (lut : Nat → Fin 3 → ℚ),
      makeVectorVolumeChecked n (some segmentation) none lut () =
        Except.error (PyException.valueError ("input is invalid"))) := by
  refine ⟨?_, fun e => rfl, ?_, fun n seg lut => rfl⟩
  · intro r
    cases r with
    | ok u => left; rfl
    | error e => right; exact ⟨_, rfl⟩
  · intro n reference lut
    cases reference <;> rfl

/-! ## Digit lemmas for the JSON number printer -/

theorem digitVal_digitChar (d : Nat) (h : d < 10) : digitVal (digitChar d) = d := by
  interval_cases d <;> rfl

theorem isDigitChar_digitChar (d : Nat) (h : d < 10) : isDigitChar (digitChar d) = true := by
  interval_cases d <;> rfl

theorem digit_ne_char (c d : Char) (h : isDigitChar c = true) (hd : isDigitChar d = false) :
    ¬(c = d) := by
  intro he
  rw [he, hd] at h
  cases h

theorem natDigits_ne_nil (n : Nat) : natDigits n ≠ [] := by
  rw [natDigits]
  by_cases h : n < 10
  · rw [if_pos h]; simp
  · rw [if_neg h]; simp

theorem natDigits_all_digits (n : Nat) : ∀ c ∈ natDigits n, isDigitChar c = true := by
  induction n using Nat.strongRecOn with
  | ind n ih =>
    by_cases h : n < 10
    · rw [natDigits, if_pos h]
      intro c hc
      rw [List.mem_singleton] at hc
      rw [hc]
      exact isDigitChar_digitChar n h
    · rw [natDigits, if_neg h]
      intro c hc
      rcases List.mem_append.mp hc with h1 | h1
      · exact ih (n / 10) (Nat.div_lt_self (by omega) (by omega)) c h1
      · rw [List.mem_singleton] at h1
        rw [h1]
        exact isDigitChar_digitChar _ (Nat.mod_lt _ (by omega))

theorem digitsVal_natDigits (n : Nat) : digitsVal (natDigits n) = n := by
  induction n using Nat.strongRecOn with
  | ind n ih =>
    by_cases h : n < 10
    · rw [natDigits, if_pos h, digitsVal, List.foldl_cons, List.foldl_nil]
      rw [digitVal_digitChar n h]
      omega
    · rw [natDigits, if_neg h, digitsVal, List.foldl_append, List.foldl_cons, List.foldl_nil]
      have hih := ih (n / 10) (Nat.div_lt_self (by omega) (by omega))
      rw [digitsVal] at hih
      rw [hih, digitVal_digitChar _ (Nat.mod_lt _ (by omega))]
      omega

theorem takeDigits_append (ds rest : List Char)
    (hall : ∀ c ∈ ds, isDigitChar c = true) (hrest : noLeadDigit rest = true) :
    takeDigits (ds ++ rest) = (ds, rest) := by
  induction ds with
  | nil =>
    rw [List.nil_append]
    cases rest with
    | nil => rfl
    | cons c cs =>
      have hc : isDigitChar c = false := by
        rw [noLeadDigit] at hrest
        simpa using hrest
      rw [takeDigits, if_neg (by simp [hc])]
  | cons d ds2 ih =>
    rw [List.cons_append, takeDigits, if_pos (hall d (List.mem_cons_self _ _))]
    rw [ih (fun c hc => hall c (List.mem_cons_of_mem _ hc))]

/-! ## String literal lemmas -/

theorem parseStringBody_escape (s rest : List Char) :
    parseStringBody (escapeString s ++ (quoteChar :: rest)) = some (s, rest) := by
  induction s with
  | nil =>
    rw [escapeString, List.nil_append, parseStringBody.eq_def]
    simp
  | cons c cs ih =>
    by_cases h1 : c = quoteChar
    · subst h1
      rw [escapeString, escapeChar, if_pos rfl]
      simp only [List.cons_append, List.nil_append]
      rw [parseStringBody.eq_def]
      simp [ih]
      decide
    · by_cases h2 : c = backslashChar
      · subst h2
        rw [escapeString, escapeChar,
          if_neg (by decide : ¬(backslashChar = quoteChar)), if_pos rfl]
        simp only [List.cons_append, List.nil_append]
        rw [parseStringBody.eq_def]
        simp [ih]
        decide
      · rw [escapeString, escapeChar, if_neg h1, if_neg h2]
        simp only [List.cons_append, List.nil_append]
        rw [parseStringBody.eq_def]
        simp [h1, h2, ih]

/-! ## Shape lemmas for the printer -/

theorem dumpJson_head (j : Json) :
    ∃ c cs, dumpJson j = c :: cs ∧ ¬(c = ']') ∧ ¬(c = rbraceChar) := by
  cases j with
  | null => exact ⟨'n', ['u', 'l', 'l'], rfl, by decide, by decide⟩
  | bool b =>
    cases b with
    | true => exact ⟨'t', ['r', 'u', 'e'], rfl, by decide, by decide⟩
    | false => exact ⟨'f', ['a', 'l', 's', 'e'], rfl, by decide, by decide⟩
  | num n =>
    by_cases h : n < 0
    · refine ⟨'-', natDigits n.natAbs, ?_, by decide, by decide⟩
      rw [dumpJson, intChars, if_pos h]
    · cases hnd : natDigits n.natAbs with
      | nil => exact absurd hnd (natDigits_ne_nil _)
      | cons d ds =>
        have hdig : isDigitChar d = true :=
          natDigits_all_digits n.natAbs d (by rw [hnd]; exact List.mem_cons_self _ _)
        refine ⟨d, ds, ?_, digit_ne_char d _ hdig (by decide),
          digit_ne_char d _ hdig (by decide)⟩
        rw [dumpJson, intChars, if_neg h, hnd]
  | str s => exact ⟨quoteChar, _, rfl, by decide, by decide⟩
  | arr items => exact ⟨'[', _, rfl, by decide, by decide⟩
  | obj members => exact ⟨lbraceChar, _, rfl, by decide, by decide⟩

theorem one_le_sizeJ (j : Json) : 1 ≤ sizeJ j := by
  cases j <;> simp [sizeJ]

mutual
theorem sizeJ_le_length : ∀ j : Json, sizeJ j ≤ (dumpJson j).length
  | .null => by simp [sizeJ, dumpJson, nullText]
  | .bool true => by simp [sizeJ, dumpJson, trueText]
  | .bool false => by simp [sizeJ, dumpJson, falseText]
  | .num n => by
    have h := List.length_pos.mpr (natDigits_ne_nil n.natAbs)
    simp only [sizeJ, dumpJson, intChars]
    by_cases hn : n < 0
    · rw [if_pos hn]
      simp only [List.length_cons]
      omega
    · rw [if_neg hn]
      omega
  | .str s => by
    simp only [sizeJ, dumpJson, quoteString, List.length_cons]
    omega
  | .arr items => by
    have h := sizeA_le_length items
    simp only [sizeJ, dumpJson, List.length_cons, List.length_append]
    simp only [List.length_cons, List.length_nil]
    omega
  | .obj members => by
    have h := sizeO_le_length members
    simp only [sizeJ, dumpJson, List.length_cons, List.length_append]
    simp only [List.length_cons, List.length_nil]
    omega
theorem sizeA_le_length : ∀ items : JsonArray, sizeA items ≤ 1 + (dumpArray items).length
  | .nil => by simp [sizeA, dumpArray]
  | .cons hd .nil => by
    have h := sizeJ_le_length hd
    simp only [sizeA, sizeA.eq_1, dumpArray]
    simp [sizeA]
    omega
  | .cons hd (.cons hd2 tl) => by
    have h1 := sizeJ_le_length hd
    have h2 := sizeA_le_length (.cons hd2 tl)
    simp only [sizeA, dumpArray, List.length_append, List.length_cons]
    simp only [sizeA] at h2
    omega
theorem sizeO_le_length : ∀ members : JsonObject, sizeO members ≤ 1 + (dumpObject members).length
  | .nil => by simp [sizeO, dumpObject]
  | .cons k v .nil => by
    have h := sizeJ_le_length v
    simp only [sizeO, dumpObject, List.length_append, List.length_cons]
    simp [sizeO]
    omega
  | .cons k v (.cons k2 v2 tl) => by
    have h1 := sizeJ_le_length v
    have h2 := sizeO_le_length (.cons k2 v2 tl)
    simp only [sizeO, dumpObject, List.length_append, List.length_cons]
    simp only [sizeO] at h2
    omega
end

/-! ## Character facts used when running the parser over printed output -/

theorem idc_n : isDigitChar 'n' = false := by decide

theorem idc_t : isDigitChar 't' = false := by decide

theorem idc_f : isDigitChar 'f' = false := by decide

theorem idc_minus : isDigitChar '-' = false := by decide

theorem idc_quote : isDigitChar quoteChar = false := by decide

theorem idc_lbrack : isDigitChar '[' = false := by decide

theorem idc_lbrace : isDigitChar lbraceChar = false := by decide

theorem idc_rbrack : isDigitChar ']' = false := by decide

theorem idc_rbrace : isDigitChar rbraceChar = false := by decide

theorem idc_comma : isDigitChar ',' = false := by decide

theorem idc_space : isDigitChar ' ' = false := by decide

theorem noLeadDigit_cons (c : Char) (rest : List Char) (h : isDigitChar c = false) :
    noLeadDigit (c :: rest) = true := by
  rw [noLeadDigit]
  simp [h]

theorem dumpArray_cons_head (hd : Json) (tl : JsonArray) :
    ∃ c cs, dumpArray (.cons hd tl) = c :: cs ∧ ¬(c = ']') ∧ ¬(c = rbraceChar) := by
  obtain ⟨c, cs, hc, h1, h2⟩ := dumpJson_head hd
  cases tl with
  | nil => exact ⟨c, cs, by rw [dumpArray, hc], h1, h2⟩
  | cons hd2 tl2 =>
    refine ⟨c, cs ++ ',' :: ' ' :: dumpArray (.cons hd2 tl2), ?_, h1, h2⟩
    rw [dumpArray, hc, List.cons_append]

theorem dumpObject_cons_head (k : List Char) (v : Json) (tl : JsonObject) :
    ∃ cs, dumpObject (.cons k v tl) = quoteChar :: cs := by
  cases tl with
  | nil =>
    refine ⟨(escapeString k ++ [quoteChar]) ++ (':' :: ' ' :: dumpJson v), ?_⟩
    rw [dumpObject, quoteString, List.cons_append]
  | cons k2 v2 tl2 =>
    refine ⟨((escapeString k ++ [quoteChar]) ++ (':' :: ' ' :: dumpJson v)) ++
      (',' :: ' ' :: dumpObject (.cons k2 v2 tl2)), ?_⟩
    rw [dumpObject, quoteString, List.cons_append, List.cons_append]

/-- The parser recovers exactly what the printer produced: running
`parseJson` with enough fuel on `dumpJson j` followed by any continuation
that does not start with a digit returns `j` and the continuation, and
likewise for the array item and object member parsers. -/
theorem parse_dump (fuel : Nat) :
    (∀ (j : Json) (rest : List Char), sizeJ j ≤ fuel → noLeadDigit rest = true →
      parseJson fuel (dumpJson j ++ rest) = some (j, rest)) ∧
    (∀ (hd : Json) (tl : JsonArray) (rest : List Char), sizeA (.cons hd tl) ≤ fuel →
      parseArrayItems fuel (dumpArray (.cons hd tl) ++ (']' :: rest)) =
        some (JsonArray.cons hd tl, rest)) ∧
    (∀ (k : List Char) (v : Json) (tl : JsonObject) (rest : List Char),
      sizeO (.cons k v tl) ≤ fuel →
      parseObjectMembers fuel (dumpObject (.cons k v tl) ++ (rbraceChar :: rest)) =
        some (JsonObject.cons k v tl, rest)) := by
  induction fuel with
  | zero =>
    refine ⟨?_, ?_, ?_⟩
    · intro j rest hs _
      exact absurd hs (by have := one_le_sizeJ j; omega)
    · intro hd tl rest hs
      exact absurd hs (by rw [sizeA]; omega)
    · intro k v tl rest hs
      exact absurd hs (by rw [sizeO]; omega)
  | succ fuel ih =>
    obtain ⟨ihJ, ihA, ihO⟩ := ih
    refine ⟨?_, ?_, ?_⟩
    · intro j rest hs hrest
      cases j with
      | null =>
        simp only [dumpJson, nullText, List.cons_append, List.nil_append]
        rw [parseJson.eq_def]
        simp [idc_n]
      | bool b =>
        cases b with
        | true =>
          simp only [dumpJson, trueText, List.cons_append, List.nil_append]
          rw [parseJson.eq_def]
          simp [idc_t]
        | false =>
          simp only [dumpJson, falseText, List.cons_append, List.nil_append]
          rw [parseJson.eq_def]
          simp [idc_f]
      | num n =>
        by_cases hn : n < 0
        · cases hnd : natDigits n.natAbs with
          | nil => exact absurd hnd (natDigits_ne_nil _)
          | cons d ds =>
            have hdig : isDigitChar d = true :=
              natDigits_all_digits n.natAbs d (by rw [hnd]; exact List.mem_cons_self _ _)
            have hsplit : dumpJson (Json.num n) ++ rest = '-' :: (d :: (ds ++ rest)) := by
              rw [dumpJson, intChars, if_pos hn, hnd]
              simp
            have htake : takeDigits (d :: (ds ++ rest)) = (natDigits n.natAbs, rest) := by
              rw [show d :: (ds ++ rest) = natDigits n.natAbs ++ rest from by
                rw [hnd, List.cons_append]]
              exact takeDigits_append _ _ (natDigits_all_digits _) hrest
            rw [hsplit, parseJson.eq_def]
            simp only []
            simp [idc_minus, hdig, htake, digitsVal_natDigits]
            rw [abs_of_neg hn, neg_neg]
        · cases hnd : natDigits n.natAbs with
          | nil => exact absurd hnd (natDigits_ne_nil _)
          | cons d ds =>
            have hdig : isDigitChar d = true :=
              natDigits_all_digits n.natAbs d (by rw [hnd]; exact List.mem_cons_self _ _)
            have hsplit : dumpJson (Json.num n) ++ rest = d :: (ds ++ rest) := by
              rw [dumpJson, intChars, if_neg hn, hnd, List.cons_append]
            have htake : takeDigits (d :: (ds ++ rest)) = (natDigits n.natAbs, rest) := by
              rw [show d :: (ds ++ rest) = natDigits n.natAbs ++ rest from by
                rw [hnd, List.cons_append]]
              exact takeDigits_append _ _ (natDigits_all_digits _) hrest
            rw [hsplit, parseJson.eq_def]
            simp only []
            rw [if_pos hdig]
            simp only [htake, digitsVal_natDigits]
            have hofn : Int.ofNat n.natAbs = n := by
              rw [Int.ofNat_eq_natCast]
              omega
            rw [hofn]
      | str s =>
        have hsplit : dumpJson (Json.str s) ++ rest =
            quoteChar :: (escapeString s ++ (quoteChar :: rest)) := by
          rw [dumpJson, quoteString]
          simp [List.append_assoc]
        rw [hsplit, parseJson.eq_def]
        simp only []
        simp [parseStringBody_escape, idc_quote,
          show ¬(quoteChar = '-') from by decide, show ¬(quoteChar = 'n') from by decide,
          show ¬(quoteChar = 't') from by decide, show ¬(quoteChar = 'f') from by decide]
      | arr items =>
        cases items with
        | nil =>
          simp only [dumpJson, dumpArray, List.nil_append, List.cons_append]
          rw [parseJson.eq_def]
          simp [idc_lbrack, show ¬('[' = quoteChar) from by decide]
        | cons hd tl =>
          obtain ⟨c, cs, hca, h1, h2⟩ := dumpArray_cons_head hd tl
          have hsplit : dumpJson (Json.arr (.cons hd tl)) ++ rest =
              '[' :: (c :: (cs ++ (']' :: rest))) := by
            rw [dumpJson, hca]
            simp
          have hback : c :: (cs ++ (']' :: rest)) =
              dumpArray (.cons hd tl) ++ (']' :: rest) := by
            rw [hca, List.cons_append]
          rw [hsplit, parseJson.eq_def]
          simp only []
          simp [idc_lbrack, h1, show ¬('[' = quoteChar) from by decide,
            show ¬('[' = lbraceChar) from by decide, hback,
            ihA hd tl rest (by rw [sizeJ] at hs; omega)]
      | obj members =>
        cases members with
        | nil =>
          simp only [dumpJson, dumpObject, List.nil_append, List.cons_append]
          rw [parseJson.eq_def]
          simp [idc_lbrace, show ¬(lbraceChar = '-') from by decide,
            show ¬(lbraceChar = 'n') from by decide, show ¬(lbraceChar = 't') from by decide,
            show ¬(lbraceChar = 'f') from by decide,
            show ¬(lbraceChar = quoteChar) from by decide,
            show ¬(lbraceChar = '[') from by decide]
        | cons k v tl =>
          obtain ⟨cs, hq⟩ := dumpObject_cons_head k v tl
          have hsplit : dumpJson (Json.obj (.cons k v tl)) ++ rest =
              lbraceChar :: (quoteChar :: (cs ++ (rbraceChar :: rest))) := by
            rw [dumpJson, hq]
            simp
          have hback : quoteChar :: (cs ++ (rbraceChar :: rest)) =
              dumpObject (.cons k v tl) ++ (rbraceChar :: rest) := by
            rw [hq, List.cons_append]
          rw [hsplit, parseJson.eq_def]
          simp only []
          simp [idc_lbrace, show ¬(lbraceChar = '-') from by decide,
            show ¬(lbraceChar = 'n') from by decide, show ¬(lbraceChar = 't') from by decide,
            show ¬(lbraceChar = 'f') from by decide,
            show ¬(lbraceChar = quoteChar) from by decide,
            show ¬(lbraceChar = '[') from by decide,
            show ¬(quoteChar = rbraceChar) from by decide,
            hback, ihO k v tl rest (by rw [sizeJ] at hs; omega)]
    · intro hd tl rest hs
      cases tl with
      | nil =>
        rw [dumpArray, parseArrayItems.eq_def]
        simp only []
        rw [ihJ hd (']' :: rest) (by rw [sizeA] at hs; simp [sizeA] at hs; omega)
          (noLeadDigit_cons _ _ idc_rbrack)]
        simp
      | cons hd2 tl2 =>
        have hsplit : dumpArray (.cons hd (.cons hd2 tl2)) ++ (']' :: rest) =
            dumpJson hd ++ (',' :: ' ' :: (dumpArray (.cons hd2 tl2) ++ (']' :: rest))) := by
          rw [dumpArray]
          simp
        rw [hsplit, parseArrayItems.eq_def]
        simp only []
        rw [sizeA] at hs
        rw [ihJ hd _ (by omega) (noLeadDigit_cons _ _ idc_comma)]
        simp only []
        rw [ihA hd2 tl2 rest (by omega)]
        simp
    · intro k v tl rest hs
      cases tl with
      | nil =>
        have hsplit : dumpObject (.cons k v .nil) ++ (rbraceChar :: rest) =
            quoteChar :: (escapeString k ++ (quoteChar ::
              (':' :: ' ' :: (dumpJson v ++ (rbraceChar :: rest))))) := by
          rw [dumpObject, quoteString]
          simp
        rw [hsplit, parseObjectMembers.eq_def]
        simp only []
        simp only [if_true]
        rw [parseStringBody_escape]
        simp only []
        rw [sizeO] at hs
        rw [ihJ v _ (by simp [sizeO] at hs; omega) (noLeadDigit_cons _ _ idc_rbrace)]
        simp
      | cons k2 v2 tl2 =>
        have hsplit : dumpObject (.cons k v (.cons k2 v2 tl2)) ++ (rbraceChar :: rest) =
            quoteChar :: (escapeString k ++ (quoteChar ::
              (':' :: ' ' :: (dumpJson v ++ (',' :: ' ' ::
                (dumpObject (.cons k2 v2 tl2) ++ (rbraceChar :: rest))))))) := by
          rw [dumpObject, quoteString]
          simp
        rw [hsplit, parseObjectMembers.eq_def]
        simp only []
        simp only [if_true]
        rw [parseStringBody_escape]
        simp only []
        rw [sizeO] at hs
        rw [ihJ v _ (by omega) (noLeadDigit_cons _ _ idc_comma)]
        simp only []
        rw [ihO k2 v2 tl2 rest (by omega)]
        simp [show ¬(',' = rbraceChar) from by decide]

theorem dumpJson_ne_nil (j : Json) : dumpJson j ≠ [] := by
  obtain ⟨c, cs, hc, _, _⟩ := dumpJson_head j
  rw [hc]
  simp

theorem loads_dumps (j : Json) : loads (dumps j) = some j := by
  have hfuel : sizeJ j ≤ (dumpJson j).length + 1 := by
    have := sizeJ_le_length j
    omega
  have h := (parse_dump ((dumpJson j).length + 1)).1 j [] hfuel rfl
  rw [List.append_nil] at h
  rw [loads, dumps]
  rw [h]
  simp

/-- C6: `setScript` followed by `getScript` on the same animation node
returns exactly the script that was stored (the script round-trips through
the node's `Animation.script` attribute string), and on a node whose
script attribute was never set `getScript` returns the empty mapping. -/
theorem c6_script_roundtrip :
    (∀ (nd : AnimationNode) (script : Json),
      AnimatorLogic.getScript (AnimatorLogic.setScript nd script) = some script) ∧
    AnimatorLogic.getScript ⟨none⟩ = some (Json.obj JsonObject.nil) := by
  constructor
  · intro nd script
    rw [AnimatorLogic.setScript, AnimatorLogic.getScript]
    simp only []
    rw [if_neg (show ¬(dumps script = []) from dumpJson_ne_nil script)]
    exact loads_dumps script
  · rfl
